import Mathlib

/-!
Verification of the question/answer bookkeeping of the kitsune support forum.

This file shallowly embeds the code of `kitsune/questions/models.py` and
`kitsune/questions/tasks.py`: database rows become Lean structures, tables
become lists of rows, datetimes become integers (seconds), and every
operation becomes a pure function from the old state to the new state.
Fallible operations return `Option`/`Except`.  Each definition is translated
from the corresponding Python function; the few places where the Python
source is not available are modelled from the specification and marked as
such in their doc comments.
-/

/-- One row of the `Question` table, restricted to the columns that the
verified operations read or write (`models.py`, class `Question`). -/
structure QuestionRec where
  id : Nat
  creator : Nat
  is_spam : Bool
  taken_by : Option Nat
  taken_until : Option Int
  num_votes_past_week : Nat
  last_answer : Option Nat
  solution : Option Nat
  num_answers : Int
  deriving DecidableEq

/-- One row of the `Answer` table, restricted to the columns that the
verified operations read or write (`models.py`, class `Answer`). -/
structure AnswerRec where
  id : Nat
  question_id : Nat
  created : Int
  is_spam : Bool
  page : Nat
  deriving DecidableEq

/-- A `QuestionVote` row: the question voted on and the vote's creation
time (`models.py`, class `QuestionVote`). -/
structure QuestionVoteRec where
  question_id : Nat
  created : Int
  deriving DecidableEq

/-- The slice of the database touched by the verified operations. -/
structure DB where
  questions : List QuestionRec
  answers : List AnswerRec
  votes : List QuestionVoteRec
  deriving DecidableEq

/-- The errors raised by `Question.take` (`models.py`:
`InvalidUserException`, `AlreadyTakenException`). -/
inductive TakeError where
  | invalidUser
  | alreadyTaken
  deriving DecidableEq

/-- Modelled from the spec: `kitsune/questions/config.py` is not among the
sources; the spec fixes the claim lease length only as "a fresh expiry",
so the concrete value of `TAKE_TIMEOUT` is immaterial to the claims. -/
def TAKE_TIMEOUT : Int := 600

/-- Modelled from the spec: `kitsune/questions/config.py` is not among the
sources; the spec fixes the page bucket size at 20 answers per page. -/
def ANSWERS_PER_PAGE : Nat := 20

/-- `Question.take(user, force)` (`models.py` lines 720-742): raise
`InvalidUserException` when the acting user authored the question; raise
`AlreadyTakenException` when the question is taken by a different user and
`force` is not set; otherwise record the user and a fresh expiry. -/
def question_take (q : QuestionRec) (user : Nat) (force : Bool) (now : Int) :
    Except TakeError QuestionRec :=
  if user = q.creator then
    .error .invalidUser
  else if (q.taken_by ≠ none ∧ q.taken_by ≠ some user) ∧ ¬force then
    .error .alreadyTaken
  else
    .ok { q with taken_by := some user, taken_until := some (now + TAKE_TIMEOUT) }

/-- `Question.is_taken` (`models.py` lines 704-718): a claim is only valid
when both fields are set and the expiry is not in the past; any invalid
remnant is reset in the database.  Returns the boolean together with the
possibly-updated row. -/
def question_is_taken (q : QuestionRec) (now : Int) : Bool × QuestionRec :=
  match q.taken_by, q.taken_until with
  | some _, some t =>
      if t < now then
        (false, { q with taken_by := none, taken_until := none })
      else
        (true, q)
  | none, none => (false, q)
  | _, _ => (false, { q with taken_by := none, taken_until := none })

/-- A request as seen by `AAQBase.has_voted` (`models.py` lines 75-97): an
optional authenticated user and an optional anonymous id. -/
structure RequestRec where
  user : Option Nat
  anonymous_id : Option Nat
  deriving DecidableEq

/-- `AAQBase.has_voted(request)` (`models.py` lines 75-97), shared by
`Question` and `Answer`; the class of `self` only selects which vote table
is consulted, so the table rows are passed in: `votes_by_user` holds the
creator ids of the existing votes on `self`, `votes_by_anon` the anonymous
ids. -/
def has_voted (creator : Nat) (votes_by_user : List Nat)
    (votes_by_anon : List Nat) (request : RequestRec) : Bool :=
  match request.user with
  | some u =>
      if creator = u then true
      else votes_by_user.contains u
  | none =>
      match request.anonymous_id with
      | some a => votes_by_anon.contains a
      | none => false

/-- C5: the claim states that claiming an already-claimed question without
`force` always fails; the code lets the current holder re-claim without
`force` (refreshing the timer), so the claim is false as stated.  Here the
question is taken by user 2, and user 2 takes it again without force: the
call succeeds. -/
theorem c5_counterexample :
    question_take
      { id := 1, creator := 1, is_spam := false, taken_by := some 2,
        taken_until := some 1000, num_votes_past_week := 0,
        last_answer := none, solution := none, num_answers := 0 }
      2 false 500 =
    .ok { id := 1, creator := 1, is_spam := false, taken_by := some 2,
          taken_until := some (500 + TAKE_TIMEOUT), num_votes_past_week := 0,
          last_answer := none, solution := none, num_answers := 0 } := rfl

/-- C5 (amended): taking a question you authored raises the invalid-user
error even with `force`; taking a question claimed by a *different* user
without `force` raises the already-taken error; otherwise (with `force`,
or unclaimed, or claimed by the acting user) the call succeeds, records
the user and sets a fresh expiry `now + TAKE_TIMEOUT`. -/
theorem c5_take_outcomes (q : QuestionRec) (user : Nat) (force : Bool) (now : Int) :
    (user = q.creator → question_take q user force now = .error .invalidUser)
    ∧ (∀ v, user ≠ q.creator → q.taken_by = some v → v ≠ user →
        question_take q user false now = .error .alreadyTaken)
    ∧ (user ≠ q.creator →
        (force = true ∨ q.taken_by = none ∨ q.taken_by = some user) →
        question_take q user force now =
          .ok { q with taken_by := some user,
                       taken_until := some (now + TAKE_TIMEOUT) }) := by
  refine ⟨fun h => ?_, fun v hu hv hne => ?_, fun hu hcase => ?_⟩
  · simp [question_take, h]
  · simp only [question_take, if_neg (fun h => hu h)]
    rw [if_pos]
    exact ⟨⟨by simp [hv], by simp [hv]; exact fun h => hne h⟩, by simp⟩
  · simp only [question_take, if_neg (fun h => hu h)]
    rw [if_neg]
    rintro ⟨⟨h1, h2⟩, h3⟩
    rcases hcase with hf | hn | hs
    · exact h3 (by simp [hf])
    · exact h1 hn
    · exact h2 hs

/-- C5 witness: concrete instantiations of all three outcomes. -/
theorem c5_witness :
    question_take
      { id := 1, creator := 7, is_spam := false, taken_by := none,
        taken_until := none, num_votes_past_week := 0,
        last_answer := none, solution := none, num_answers := 0 }
      7 false 0 = .error .invalidUser
    ∧ question_take
      { id := 1, creator := 7, is_spam := false, taken_by := some 3,
        taken_until := some 50, num_votes_past_week := 0,
        last_answer := none, solution := none, num_answers := 0 }
      4 false 0 = .error .alreadyTaken
    ∧ question_take
      { id := 1, creator := 7, is_spam := false, taken_by := some 3,
        taken_until := some 50, num_votes_past_week := 0,
        last_answer := none, solution := none, num_answers := 0 }
      4 true 10 =
      .ok { id := 1, creator := 7, is_spam := false, taken_by := some 4,
            taken_until := some (10 + TAKE_TIMEOUT), num_votes_past_week := 0,
            last_answer := none, solution := none, num_answers := 0 } := by
  refine ⟨(c5_take_outcomes _ 7 false 0).1 (by decide), ?_, ?_⟩
  · exact (c5_take_outcomes _ 4 false 0).2.1 3 (by decide) (by decide) (by decide)
  · exact (c5_take_outcomes _ 4 true 10).2.2 (by decide) (Or.inl rfl)

/-- C6: a claim whose expiry has passed, or whose two fields are not both
set, is no claim at all: `is_taken` answers `false` and resets both fields
in the stored row. -/
theorem c6_expired_claim_reset (q : QuestionRec) (now : Int)
    (h : (∃ t, q.taken_until = some t ∧ t < now)
       ∨ (q.taken_by = none ∧ q.taken_until ≠ none)
       ∨ (q.taken_by ≠ none ∧ q.taken_until = none)) :
    (question_is_taken q now).1 = false
    ∧ (question_is_taken q now).2.taken_by = none
    ∧ (question_is_taken q now).2.taken_until = none := by
  rcases hby : q.taken_by with _ | u <;> rcases huntil : q.taken_until with _ | t
  · rcases h with ⟨t, ht, _⟩ | ⟨_, hne⟩ | ⟨hne, _⟩
    · rw [huntil] at ht; exact absurd ht (by simp)
    · exact absurd huntil hne
    · exact absurd hby hne
  · simp [question_is_taken, hby, huntil]
  · simp [question_is_taken, hby, huntil]
  · have hlt : t < now := by
      rcases h with ⟨t', ht', hlt⟩ | ⟨hn, _⟩ | ⟨_, hn⟩
      · rw [huntil] at ht'; injection ht' with h1; rwa [h1]
      · exact absurd hby (by rw [hn]; exact fun h => Option.noConfusion h)
      · exact absurd huntil (by rw [hn]; exact fun h => Option.noConfusion h)
    simp [question_is_taken, hby, huntil, hlt]

/-- C6 witness: a question held by user 3 until time 100, examined at time
200, is reported untaken and the row is cleared. -/
theorem c6_witness :
    (question_is_taken
      { id := 1, creator := 7, is_spam := false, taken_by := some 3,
        taken_until := some 100, num_votes_past_week := 0,
        last_answer := none, solution := none, num_answers := 0 } 200).1 = false
    ∧ (question_is_taken
      { id := 1, creator := 7, is_spam := false, taken_by := some 3,
        taken_until := some 100, num_votes_past_week := 0,
        last_answer := none, solution := none, num_answers := 0 } 200).2.taken_by = none
    ∧ (question_is_taken
      { id := 1, creator := 7, is_spam := false, taken_by := some 3,
        taken_until := some 100, num_votes_past_week := 0,
        last_answer := none, solution := none, num_answers := 0 } 200).2.taken_until = none :=
  c6_expired_claim_reset _ 200 (Or.inl ⟨100, rfl, by decide⟩)

/-- C10: the creator of a question or answer is reported as having voted
regardless of the vote tables, and a request that is neither authenticated
nor carries an anonymous id is reported as not having voted. -/
theorem c10_has_voted_creator_and_anonymous (creator : Nat)
    (votes_by_user votes_by_anon : List Nat) (request : RequestRec) :
    (request.user = some creator →
      has_voted creator votes_by_user votes_by_anon request = true)
    ∧ (request.user = none → request.anonymous_id = none →
      has_voted creator votes_by_user votes_by_anon request = false) := by
  constructor
  · intro h
    simp [has_voted, h]
  · intro hu ha
    simp [has_voted, hu, ha]

/-- C10 witness: creator 5 making the request is an automatic `true` even
with empty vote tables; a fully anonymous request without an id is `false`
even when votes exist. -/
theorem c10_witness :
    has_voted 5 [] [] { user := some 5, anonymous_id := none } = true
    ∧ has_voted 5 [1, 2] [3] { user := none, anonymous_id := none } = false :=
  ⟨(c10_has_voted_creator_and_anonymous 5 [] [] _).1 rfl,
   (c10_has_voted_creator_and_anonymous 5 [1, 2] [3] _).2 rfl rfl⟩

/-- Midnight at the start of the day containing instant `t`, with days of
86400 seconds; models taking `.date()` of a datetime, or `.replace` of its
time-of-day fields by zero. -/
def startOfDay (t : Int) : Int := t - t % 86400

/-- `Question.sync_num_votes_past_week` (`models.py` lines 351-357): count
the question's votes created between `datetime.now().date() - 7 days`
(a date, hence midnight) and now; `votes` lists the creation times of the
question's `QuestionVote` rows.  Returns the new counter value. -/
def sync_num_votes_past_week (now : Int) (votes : List Int) : Nat :=
  let last_week := startOfDay now - 7 * 86400
  votes.countP (fun c => decide (last_week ≤ c) && decide (c ≤ now))

/-- `update_question_vote_chunk` (`tasks.py` lines 32-57): for every listed
question, set `num_votes_past_week` to the number of its votes created
between `(now - 7 days).replace(hour=0, minute=0, second=0, microsecond=0)`
and now; the `Coalesce(Subquery(count), 0)` turns an absent count into 0,
which the plain count already is. -/
def update_question_vote_chunk (now : Int) (question_ids : List Nat)
    (questions : List QuestionRec) (votes : List QuestionVoteRec) :
    List QuestionRec :=
  let past_week := startOfDay (now - 7 * 86400)
  questions.map fun q =>
    if q.id ∈ question_ids then
      { q with num_votes_past_week :=
          votes.countP (fun v =>
            v.question_id == q.id && decide (past_week ≤ v.created)
              && decide (v.created ≤ now)) }
    else q

/-- The creation times of the votes of question `qid` in the vote table. -/
def votesOf (vrows : List QuestionVoteRec) (qid : Nat) : List Int :=
  (vrows.filter (fun v => v.question_id == qid)).map (fun v => v.created)

/-- The window asserted by the claim: creation time within
`[now - 7 days, now]`, with the lower bound *not* truncated to midnight. -/
def num_votes_claim_window (now : Int) (votes : List Int) : Nat :=
  votes.countP (fun c => decide (now - 7 * 86400 ≤ c) && decide (c ≤ now))

/-- The window the code actually uses: creation time within
`[startOfDay now - 7 days, now]`, i.e. from midnight of the day seven days
ago. -/
def num_votes_code_window (now : Int) (votes : List Int) : Nat :=
  votes.countP (fun c =>
    decide (startOfDay now - 7 * 86400 ≤ c) && decide (c ≤ now))

/-- C4: the claim says the counter becomes the number of votes created in
`[now - 7 days, now]`; the code starts the window at midnight of the day
seven days before.  At `now` = day 10 plus one hour, a vote from day 3
plus 100 seconds is counted by the code but lies outside the claim's
window. -/
theorem c4_counterexample :
    sync_num_votes_past_week 867600 [259300] = 1
    ∧ num_votes_claim_window 867600 [259300] = 0 := by
  constructor <;> decide

/-- C4 (amended): both `sync_num_votes_past_week` and
`update_question_vote_chunk` set a question's counter to the number of its
votes created within `[startOfDay now - 7 days, now]`, the window starting
at midnight of the day seven days before `now`; in particular the two
variants agree with each other. -/
theorem c4_vote_window (now : Int) (votes : List Int) (question_ids : List Nat)
    (questions : List QuestionRec) (vrows : List QuestionVoteRec) :
    sync_num_votes_past_week now votes = num_votes_code_window now votes
    ∧ update_question_vote_chunk now question_ids questions vrows =
        questions.map (fun q =>
          if q.id ∈ question_ids then
            { q with num_votes_past_week := num_votes_code_window now (votesOf vrows q.id) }
          else q) := by
  constructor
  · rfl
  · have hday : startOfDay (now - 7 * 86400) = startOfDay now - 7 * 86400 := by
      unfold startOfDay
      omega
    unfold update_question_vote_chunk
    rw [hday]
    refine List.map_congr_left (fun q _ => ?_)
    by_cases hq : q.id ∈ question_ids
    · simp only [if_pos hq]
      congr 1
      unfold num_votes_code_window votesOf
      rw [List.countP_map, List.countP_filter]
      refine List.countP_congr (fun v _ => ?_)
      by_cases h1 : v.question_id = q.id
      · simp [Function.comp, h1, Bool.and_comm, Bool.and_assoc, Bool.and_left_comm]
      · simp [Function.comp, h1]
    · simp [if_neg hq]

/-- Does `sep` occur at the head of `l`? -/
def startsWith : List Char → List Char → Bool
  | [], _ => true
  | _ :: _, [] => false
  | a :: as, b :: bs => decide (a = b) && startsWith as bs

/-- Split `l` at every occurrence of the non-empty token `sep`; the fuel is
an upper bound on the length of `l`, consumed one step per examined
character, so `l.length` always suffices. -/
def splitTokenAux (sep : List Char) : Nat → List Char → List Char → List (List Char)
  | 0, cur, rest => [cur.reverse ++ rest]
  | _ + 1, cur, [] => [cur.reverse]
  | fuel + 1, cur, c :: cs =>
      if startsWith sep (c :: cs) then
        cur.reverse :: splitTokenAux sep fuel [] ((c :: cs).drop sep.length)
      else
        splitTokenAux sep fuel (c :: cur) cs

/-- Split a character list on every occurrence of `sep`. -/
def splitToken (sep l : List Char) : List (List Char) :=
  if sep.isEmpty then [l] else splitTokenAux sep l.length [] l

/-- Split every segment on every one of the given tokens, in turn. -/
def splitAll (seps : List (List Char)) (l : List Char) : List (List Char) :=
  seps.foldl (fun segs sep => segs.flatMap (splitToken sep)) [l]

/-- Strip leading and trailing spaces from a character list. -/
def trimChars (l : List Char) : List Char :=
  ((l.dropWhile (fun c => decide (c = ' '))).reverse.dropWhile
    (fun c => decide (c = ' '))).reverse

/-- The last non-empty segment after trimming, or the whole title if every
segment trims to nothing. -/
def lastSpecific (title : String) (segs : List (List Char)) : String :=
  match ((segs.map trimChars).filter (fun s => !s.isEmpty)).getLast? with
  | some s => String.mk s
  | none => title

/-- Modelled from the spec: `get_most_specific` lives in
`kitsune/questions/utils.py`, which is not among the sources; only its unit
tests (`tests/test_utils.py`, `GetMostSpecificTests`) are.  The spec says a
hierarchical topic title is split on the separator tokens and the last
non-empty segment is returned after trimming whitespace; the unit tests
additionally force `/` to act as a separator only when surrounded by
whitespace (a bare `/` inside a leaf label such as
"Blocked application/service/website" must survive). -/
def get_most_specific (title : String) : String :=
  lastSpecific title
    (splitAll ([".", ">", "-", ";", ":", "::", "|"].map String.data
      ++ [(" / ").data]) title.data)

/-- The claim's literal algorithm: split on every one of the fixed tokens
`.`, `>`, `-`, `;`, `:`, `::`, `/`, `|` wherever it occurs, then take the
last non-empty segment after trimming whitespace. -/
def get_most_specific_claim (title : String) : String :=
  lastSpecific title
    (splitAll ([".", ">", "-", ";", ":", "::", "/", "|"].map String.data)
      title.data)

/-- C9: splitting on a bare `/`, as the claim prescribes, reduces the
hierarchical title of the repository's own unit test
(`test_utils.py` line 416) to "website", while the test demands the whole
leaf "Blocked application/service/website". -/
theorem c9_counterexample :
    get_most_specific_claim
        "Performance and connectivity / Site breakages / Blocked application/service/website"
      = "website"
    ∧ ("website" : String) ≠ "Blocked application/service/website" := by
  constructor
  · rfl
  · decide

/-- C9 (amended): the most specific leaf label is obtained by splitting on
the tokens `.`, `>`, `-`, `;`, `:`, `::`, `|` wherever they occur and on
`/` only when surrounded by whitespace, then taking the last non-empty
segment after trimming whitespace; a non-hierarchical title comes back
unchanged.  The conjuncts are exactly the cases of
`GetMostSpecificTests.test_hierarchical_topics` plus a non-hierarchical
title. -/
theorem c9_most_specific_cases :
    get_most_specific "Settings.Add-ons, extensions, and themes.Extensions" = "Extensions"
    ∧ get_most_specific "Settings>Add-ons, extensions, and themes>Extensions" = "Extensions"
    ∧ get_most_specific "Settings > Add-ons, extensions, and themes > Extensions" = "Extensions"
    ∧ get_most_specific "Settings - Add-ons, extensions, and themes - Extensions" = "Extensions"
    ∧ get_most_specific "Settings;Add-ons, extensions, and themes;Extensions" = "Extensions"
    ∧ get_most_specific "Settings ; Add-ons, extensions, and themes ; Extensions" = "Extensions"
    ∧ get_most_specific "Settings:Add-ons, extensions, and themes:Extensions" = "Extensions"
    ∧ get_most_specific "Settings : Add-ons, extensions, and themes : Extensions" = "Extensions"
    ∧ get_most_specific "Settings::Add-ons, extensions, and themes::Extensions" = "Extensions"
    ∧ get_most_specific "Settings :: Add-ons, extensions, and themes :: Extensions" = "Extensions"
    ∧ get_most_specific
        "Performance and connectivity / Site breakages / Blocked application/service/website"
        = "Blocked application/service/website"
    ∧ get_most_specific
        "Performance and connectivity|Site breakages|Blocked application/service/website"
        = "Blocked application/service/website"
    ∧ get_most_specific
        "Performance and connectivity | Site breakages |  Blocked application/service/website "
        = "Blocked application/service/website"
    ∧ get_most_specific "Passwords" = "Passwords" :=
  ⟨rfl, rfl, rfl, rfl, rfl, rfl, rfl, rfl, rfl, rfl, rfl, rfl, rfl, rfl⟩

/-- Ascending order on answer creation times, the `order_by("created")` of
the recompute task. -/
def createdLE (a b : AnswerRec) : Prop := a.created ≤ b.created

instance : DecidableRel createdLE := fun a b => Int.decLe a.created b.created

instance : IsTotal AnswerRec createdLE := ⟨fun a b => Int.le_total a.created b.created⟩

instance : IsTrans AnswerRec createdLE := ⟨fun _ _ _ => Int.le_trans⟩

/-- The page-assignment loop of `update_answer_pages` (`tasks.py` lines
74-79): walk the creation-ordered answers, give the i-th non-spam answer
page `i / ANSWERS_PER_PAGE + 1`, and leave spam answers untouched. -/
def assignPages : Nat → List AnswerRec → List AnswerRec
  | _, [] => []
  | i, a :: rest =>
      if a.is_spam then a :: assignPages i rest
      else { a with page := i / ANSWERS_PER_PAGE + 1 } :: assignPages (i + 1) rest

/-- `update_answer_pages(question_id)` (`tasks.py` lines 60-79): a missing
question is captured and the task returns without touching anything;
otherwise the question's answers are ordered by creation time and the
non-spam ones receive consecutive page numbers.  The answers table is a
multiset of rows, so saving the recomputed rows is modelled by replacing
the question's rows. -/
def update_answer_pages (db : DB) (qid : Nat) : DB :=
  match db.questions.find? (fun q => q.id == qid) with
  | none => db
  | some _ =>
      let qAnswers := db.answers.filter (fun a => a.question_id == qid)
      { db with answers :=
          db.answers.filter (fun a => !(a.question_id == qid))
            ++ assignPages 0 (qAnswers.insertionSort createdLE) }

/-- `update_question_votes(question_id)` (`tasks.py` lines 18-29): a
missing question is logged and the task exits; otherwise the question's
weekly vote counter is synced and the row saved. -/
def update_question_votes (now : Int) (db : DB) (qid : Nat) : DB :=
  match db.questions.find? (fun q => q.id == qid) with
  | none => db
  | some q =>
      let q2 := { q with num_votes_past_week :=
        sync_num_votes_past_week now (votesOf db.votes qid) }
      { db with questions := db.questions.map (fun r => if r.id == qid then q2 else r) }

/-- The fields of an answer row other than the page number. -/
def stripPage (a : AnswerRec) : Nat × Nat × Int × Bool :=
  (a.id, a.question_id, a.created, a.is_spam)

theorem assignPages_strip (i : Nat) (l : List AnswerRec) :
    (assignPages i l).map stripPage = l.map stripPage := by
  induction l generalizing i with
  | nil => rfl
  | cons a rest ih =>
      by_cases h : a.is_spam
      · simp [assignPages, h, ih]
      · simp [assignPages, h, ih, stripPage]

theorem assignPages_mem {i : Nat} {l : List AnswerRec} {a : AnswerRec}
    (h : a ∈ assignPages i l) :
    ∃ b ∈ l, a.id = b.id ∧ a.question_id = b.question_id
      ∧ a.created = b.created ∧ a.is_spam = b.is_spam := by
  induction l generalizing i with
  | nil => simp [assignPages] at h
  | cons b rest ih =>
      by_cases hb : b.is_spam
      · simp only [assignPages, if_pos hb, List.mem_cons] at h
        rcases h with h | h
        · exact ⟨b, List.mem_cons_self b rest, by simp [h]⟩
        · obtain ⟨c, hc, hps⟩ := ih h
          exact ⟨c, List.mem_cons_of_mem b hc, hps⟩
      · simp only [assignPages, if_neg hb, List.mem_cons] at h
        rcases h with h | h
        · exact ⟨b, List.mem_cons_self b rest, by simp [h]⟩
        · obtain ⟨c, hc, hps⟩ := ih h
          exact ⟨c, List.mem_cons_of_mem b hc, hps⟩

theorem assignPages_filter_nonspam (i : Nat) (l : List AnswerRec) :
    (assignPages i l).filter (fun a => !a.is_spam)
      = assignPages i (l.filter (fun a => !a.is_spam)) := by
  induction l generalizing i with
  | nil => rfl
  | cons a rest ih =>
      by_cases h : a.is_spam
      · simp [assignPages, h, ih]
      · simp [assignPages, h, ih]

theorem assignPages_filter_spam (i : Nat) (l : List AnswerRec) :
    (assignPages i l).filter (fun a => a.is_spam) = l.filter (fun a => a.is_spam) := by
  induction l generalizing i with
  | nil => rfl
  | cons a rest ih =>
      by_cases h : a.is_spam
      · simp [assignPages, h, ih]
      · simp [assignPages, h, ih]

theorem assignPages_pages (l : List AnswerRec) (i : Nat)
    (hs : ∀ a ∈ l, a.is_spam = false) :
    (assignPages i l).map (fun a => a.page)
      = (List.range l.length).map (fun k => (i + k) / ANSWERS_PER_PAGE + 1) := by
  revert hs
  induction l generalizing i with
  | nil => intro _; rfl
  | cons a rest ih =>
      intro hs
      have ha : a.is_spam = false := hs a (List.mem_cons_self a rest)
      have hrest : ∀ b ∈ rest, b.is_spam = false :=
        fun b hb => hs b (List.mem_cons_of_mem a hb)
      simp only [assignPages, ha, Bool.false_eq_true, if_false, List.map_cons,
        List.length_cons, List.range_succ_eq_map, List.map_map]
      rw [ih (i + 1) hrest]
      refine congrArg₂ List.cons (by simp) ?_
      refine List.map_congr_left (fun k _ => ?_)
      simp only [Function.comp_apply]
      congr 2
      omega

theorem assignPages_length (i : Nat) (l : List AnswerRec) :
    (assignPages i l).length = l.length := by
  induction l generalizing i with
  | nil => rfl
  | cons a rest ih =>
      by_cases h : a.is_spam
      · simp [assignPages, h, ih]
      · simp [assignPages, h, ih]


theorem assignPages_pairwise {l : List AnswerRec} {i : Nat}
    (h : List.Pairwise createdLE l) : List.Pairwise createdLE (assignPages i l) := by
  induction l generalizing i with
  | nil => exact List.Pairwise.nil
  | cons a rest ih =>
      obtain ⟨ha, hrest⟩ := List.pairwise_cons.mp h
      have hstep : ∀ j b, b ∈ assignPages j rest → createdLE a b := by
        intro j b hb
        obtain ⟨c, hc, _, _, hcr, _⟩ := assignPages_mem hb
        have := ha c hc
        unfold createdLE at this ⊢
        rw [hcr]
        exact this
      by_cases hspam : a.is_spam
      · simp only [assignPages, if_pos hspam]
        exact List.pairwise_cons.mpr ⟨hstep i, ih hrest⟩
      · simp only [assignPages, if_neg hspam]
        exact List.pairwise_cons.mpr ⟨hstep (i + 1), ih hrest⟩

/-- C1: after the page recompute runs on an existing question, the
question's non-spam answers are listed in creation order and carry the
page numbers `i / ANSWERS_PER_PAGE + 1` for the i-th oldest (0-indexed);
spam answers are excluded from the indexing (they consume no index and
their rows are untouched), and the answers of other questions are
untouched. -/
theorem c1_answer_pages (db : DB) (qid : Nat) (q : QuestionRec)
    (hfind : db.questions.find? (fun r => r.id == qid) = some q) :
    List.Pairwise createdLE
      ((update_answer_pages db qid).answers.filter
        (fun a => a.question_id == qid && !a.is_spam))
    ∧ ((update_answer_pages db qid).answers.filter
        (fun a => a.question_id == qid && !a.is_spam)).map (fun a => a.page)
      = (List.range ((update_answer_pages db qid).answers.filter
            (fun a => a.question_id == qid && !a.is_spam)).length).map
          (fun k => k / ANSWERS_PER_PAGE + 1)
    ∧ List.Perm
        (((update_answer_pages db qid).answers.filter
          (fun a => a.question_id == qid && !a.is_spam)).map stripPage)
        ((db.answers.filter (fun a => a.question_id == qid && !a.is_spam)).map stripPage)
    ∧ List.Perm
        ((update_answer_pages db qid).answers.filter
          (fun a => a.question_id == qid && a.is_spam))
        (db.answers.filter (fun a => a.question_id == qid && a.is_spam))
    ∧ (update_answer_pages db qid).answers.filter (fun a => !(a.question_id == qid))
      = db.answers.filter (fun a => !(a.question_id == qid)) := by
  have hupd : (update_answer_pages db qid).answers =
      db.answers.filter (fun a => !(a.question_id == qid))
        ++ assignPages 0
            ((db.answers.filter (fun a => a.question_id == qid)).insertionSort createdLE) := by
    unfold update_answer_pages
    rw [hfind]
  have hSperm : List.Perm
      ((db.answers.filter (fun a => a.question_id == qid)).insertionSort createdLE)
      (db.answers.filter (fun a => a.question_id == qid)) :=
    List.perm_insertionSort createdLE _
  have hSsort : List.Pairwise createdLE
      ((db.answers.filter (fun a => a.question_id == qid)).insertionSort createdLE) :=
    List.sorted_insertionSort createdLE _
  have hBmemq : ∀ a ∈ assignPages 0
      ((db.answers.filter (fun a => a.question_id == qid)).insertionSort createdLE),
      a.question_id = qid := by
    intro a ha
    obtain ⟨b, hb, _, hqid2, _, _⟩ := assignPages_mem ha
    have hbmem := hSperm.mem_iff.mp hb
    have hbeq := List.of_mem_filter hbmem
    rw [hqid2]
    exact beq_iff_eq.mp hbeq
  have hAnil : ∀ (p : AnswerRec → Bool), (∀ a, p a = true → a.question_id = qid) →
      (db.answers.filter (fun a => !(a.question_id == qid))).filter p = [] := by
    intro p hp
    refine List.filter_eq_nil_iff.mpr (fun a ha hpa => ?_)
    have hne := List.of_mem_filter ha
    rw [hp a hpa] at hne
    simp at hne
  have hNSall : ∀ a ∈ ((db.answers.filter (fun a => a.question_id == qid)).insertionSort
      createdLE).filter (fun a => !a.is_spam), a.is_spam = false := by
    intro a ha
    have := List.of_mem_filter ha
    simpa using this
  have hfilterNS : (update_answer_pages db qid).answers.filter
      (fun a => a.question_id == qid && !a.is_spam)
      = assignPages 0
          (((db.answers.filter (fun a => a.question_id == qid)).insertionSort
            createdLE).filter (fun a => !a.is_spam)) := by
    rw [hupd, List.filter_append]
    have h1 : (db.answers.filter (fun a => !(a.question_id == qid))).filter
        (fun a => a.question_id == qid && !a.is_spam) = [] := by
      refine hAnil _ (fun a hpa => ?_)
      simp only [Bool.and_eq_true, beq_iff_eq] at hpa
      exact hpa.1
    have h2 : (assignPages 0
          ((db.answers.filter (fun a => a.question_id == qid)).insertionSort
            createdLE)).filter (fun a => a.question_id == qid && !a.is_spam)
        = (assignPages 0
            ((db.answers.filter (fun a => a.question_id == qid)).insertionSort
              createdLE)).filter (fun a => !a.is_spam) :=
      List.filter_congr (fun a ha => by simp [hBmemq a ha])
    rw [h1, h2, List.nil_append, assignPages_filter_nonspam]
  refine ⟨?_, ?_, ?_, ?_, ?_⟩
  · rw [hfilterNS]
    exact assignPages_pairwise (List.Pairwise.filter _ hSsort)
  · rw [hfilterNS, assignPages_pages _ 0 hNSall, assignPages_length]
    exact List.map_congr_left (fun k _ => by rw [Nat.zero_add])
  · rw [hfilterNS, assignPages_strip]
    have hperm2 := (hSperm.filter (fun a => !a.is_spam)).map stripPage
    have heq : (db.answers.filter (fun a => a.question_id == qid)).filter
        (fun a => !a.is_spam)
        = db.answers.filter (fun a => a.question_id == qid && !a.is_spam) := by
      rw [List.filter_filter]
      exact List.filter_congr (fun a _ => Bool.and_comm _ _)
    rw [heq] at hperm2
    exact hperm2
  · rw [hupd, List.filter_append]
    have h1 : (db.answers.filter (fun a => !(a.question_id == qid))).filter
        (fun a => a.question_id == qid && a.is_spam) = [] := by
      refine hAnil _ (fun a hpa => ?_)
      simp only [Bool.and_eq_true, beq_iff_eq] at hpa
      exact hpa.1
    have h2 : (assignPages 0
          ((db.answers.filter (fun a => a.question_id == qid)).insertionSort
            createdLE)).filter (fun a => a.question_id == qid && a.is_spam)
        = (assignPages 0
            ((db.answers.filter (fun a => a.question_id == qid)).insertionSort
              createdLE)).filter (fun a => a.is_spam) :=
      List.filter_congr (fun a ha => by simp [hBmemq a ha])
    rw [h1, h2, List.nil_append, assignPages_filter_spam]
    have hperm3 := hSperm.filter (fun a => a.is_spam)
    have heq : (db.answers.filter (fun a => a.question_id == qid)).filter
        (fun a => a.is_spam)
        = db.answers.filter (fun a => a.question_id == qid && a.is_spam) := by
      rw [List.filter_filter]
      exact List.filter_congr (fun a _ => Bool.and_comm _ _)
    rw [heq] at hperm3
    exact hperm3
  · rw [hupd, List.filter_append]
    have h1 : (assignPages 0
          ((db.answers.filter (fun a => a.question_id == qid)).insertionSort
            createdLE)).filter (fun a => !(a.question_id == qid)) = [] :=
      List.filter_eq_nil_iff.mpr (fun a ha => by simp [hBmemq a ha])
    have h2 : (db.answers.filter (fun a => !(a.question_id == qid))).filter
        (fun a => !(a.question_id == qid))
        = db.answers.filter (fun a => !(a.question_id == qid)) := by
      rw [List.filter_filter]
      exact List.filter_congr (fun a _ => by rw [Bool.and_self])
    rw [h1, h2, List.append_nil]

/-- A concrete database for exercising the page recompute: question 1 has
two non-spam answers (created at 10 and 5), one spam answer, and there is
one unrelated answer of question 2. -/
def c1db : DB :=
  { questions := [{ id := 1, creator := 9, is_spam := false, taken_by := none,
                    taken_until := none, num_votes_past_week := 0, last_answer := none,
                    solution := none, num_answers := 2 }],
    answers := [
      { id := 1, question_id := 1, created := 10, is_spam := false, page := 7 },
      { id := 2, question_id := 1, created := 5, is_spam := false, page := 7 },
      { id := 3, question_id := 1, created := 7, is_spam := true, page := 9 },
      { id := 4, question_id := 2, created := 1, is_spam := false, page := 3 }],
    votes := [] }

/-- The single question row of `c1db`. -/
def c1q : QuestionRec :=
  { id := 1, creator := 9, is_spam := false, taken_by := none,
    taken_until := none, num_votes_past_week := 0, last_answer := none,
    solution := none, num_answers := 2 }

/-- C1 witness: on the concrete database the recompute gives the two
non-spam answers of question 1 the pages of their creation-order indices. -/
theorem c1_witness :
    c1db.questions.find? (fun r => r.id == 1) = some c1q
    ∧ ((update_answer_pages c1db 1).answers.filter
        (fun a => a.question_id == 1 && !a.is_spam)).map (fun a => a.page)
      = (List.range ((update_answer_pages c1db 1).answers.filter
            (fun a => a.question_id == 1 && !a.is_spam)).length).map
          (fun k => k / ANSWERS_PER_PAGE + 1) :=
  ⟨rfl, (c1_answer_pages c1db 1 c1q rfl).2.1⟩

/-- C8: when the question id no longer matches any stored question, both
asynchronous jobs return without error and leave the database exactly as
it was: the not-found race is a no-op. -/
theorem c8_missing_question_noop (now : Int) (db : DB) (qid : Nat)
    (h : ∀ q ∈ db.questions, q.id ≠ qid) :
    update_question_votes now db qid = db ∧ update_answer_pages db qid = db := by
  have hfind : db.questions.find? (fun r => r.id == qid) = none :=
    List.find?_eq_none.mpr (fun q hq => by simp [h q hq])
  constructor
  · unfold update_question_votes
    rw [hfind]
  · unfold update_answer_pages
    rw [hfind]

/-- A concrete database holding only question 1 together with one of its
answers and one vote. -/
def c8db : DB :=
  { questions := [{ id := 1, creator := 9, is_spam := false, taken_by := none,
                    taken_until := none, num_votes_past_week := 3, last_answer := some 1,
                    solution := none, num_answers := 1 }],
    answers := [{ id := 1, question_id := 1, created := 10, is_spam := false, page := 1 }],
    votes := [{ question_id := 1, created := 10 }] }

/-- C8 witness: question 2 does not exist in `c8db`, and both jobs sent
after it leave the database untouched. -/
theorem c8_witness :
    (∀ q ∈ c8db.questions, q.id ≠ 2)
    ∧ (update_question_votes 100 c8db 2 = c8db ∧ update_answer_pages c8db 2 = c8db) :=
  ⟨by decide, c8_missing_question_noop 100 c8db 2 (by decide)⟩

/-- A `QuestionVisits` row (`models.py` lines 768-772): one external
page-view counter per question. -/
structure QVisit where
  question_id : Nat
  visits : Nat
  deriving DecidableEq

/-- Fueled splitting of a list into consecutive chunks of size `n`; fuel
bounded below by the list length always suffices. -/
def chunkedAux {α : Type} (n : Nat) : Nat → List α → List (List α)
  | _, [] => []
  | 0, l => [l]
  | fuel + 1, l => l.take n :: chunkedAux n fuel (l.drop n)

/-- Modelled from the spec: `kitsune/sumo/utils.py` (`chunked`) is not
among the sources; the spec describes plain consecutive batching (buffers
of 30,000, insert sub-batches of 1,000). -/
def chunked {α : Type} (l : List α) (n : Nat) : List (List α) :=
  chunkedAux n l.length l

theorem chunkedAux_flatten {α : Type} (n : Nat) :
    ∀ (fuel : Nat) (l : List α), (chunkedAux n fuel l).flatten = l := by
  intro fuel
  induction fuel with
  | zero =>
      intro l
      cases l with
      | nil => rfl
      | cons a tl => simp [chunkedAux]
  | succ fuel ih =>
      intro l
      cases l with
      | nil => rfl
      | cons a tl =>
          simp only [chunkedAux, List.flatten_cons, ih]
          exact List.take_append_drop n (a :: tl)

theorem chunked_flatten {α : Type} (l : List α) (n : Nat) :
    (chunked l n).flatten = l :=
  chunkedAux_flatten n l.length l

/-- The question ids of a buffered batch of `(question_id, visits)` pairs,
the `question_ids = list(instance_by_question_id)` of the source. -/
def batchKeys (b : List (Nat × Nat)) : List Nat := b.map Prod.fst

/-- `create_batch` (`models.py` lines 790-804): bulk-create rows for the
ids of the sub-batch, but only those that still refer to an existing
Question; `existing` lists the ids of the `Question` table in the query's
default order, and the visit counts come from the buffered batch `b` (the
`instance_by_question_id` dict). -/
def create_batch (existing : List Nat) (b : List (Nat × Nat))
    (sub : List Nat) : List QVisit :=
  (existing.filter (fun id => decide (id ∈ sub))).filterMap
    (fun id => (b.lookup id).map (fun v => { question_id := id, visits := v }))

/-- All rows inserted for one buffered batch: `create_batch` applied to
each sub-batch of 1,000 ids. -/
def chunkInserts (existing : List Nat) (b : List (Nat × Nat)) : List QVisit :=
  ((chunked (batchKeys b) 1000).map (create_batch existing b)).flatten

/-- One iteration of the buffer loop of `reload_from_analytics`
(`models.py` lines 808-851): delete every stored row whose question id is
in the batch, then insert the fresh rows sub-batch by sub-batch. -/
def processChunk (existing : List Nat) (state : List QVisit)
    (b : List (Nat × Nat)) : List QVisit :=
  (chunked (batchKeys b) 1000).foldl
    (fun st sub => st ++ create_batch existing b sub)
    (state.filter (fun r => !(decide (r.question_id ∈ batchKeys b))))

/-- `QuestionVisits.reload_from_analytics` (`models.py` lines 774-854):
stream the analytics pairs, buffer them 30,000 at a time, and replace the
stored rows of each buffer; `pv` is the `pageviews_by_question_id` mapping
as an association list with distinct keys, `state` the stored
`QuestionVisits` table. -/
def reload_from_analytics (existing : List Nat) (pv : List (Nat × Nat))
    (state : List QVisit) : List QVisit :=
  (chunked pv 30000).foldl (processChunk existing) state

theorem foldl_append_flatten {α β : Type} (f : α → List β) :
    ∀ (subs : List α) (init : List β),
      subs.foldl (fun st sub => st ++ f sub) init = init ++ (subs.map f).flatten := by
  intro subs
  induction subs with
  | nil => intro init; simp
  | cons a tl ih =>
      intro init
      simp only [List.foldl_cons, List.map_cons, List.flatten_cons, ih, List.append_assoc]

theorem processChunk_eq (existing : List Nat) (state : List QVisit)
    (b : List (Nat × Nat)) :
    processChunk existing state b
      = state.filter (fun r => !(decide (r.question_id ∈ batchKeys b)))
          ++ chunkInserts existing b :=
  foldl_append_flatten (create_batch existing b) (chunked (batchKeys b) 1000) _

theorem create_batch_mem {existing : List Nat} {b : List (Nat × Nat)}
    {sub : List Nat} {r : QVisit} (h : r ∈ create_batch existing b sub) :
    r.question_id ∈ existing ∧ r.question_id ∈ sub
      ∧ b.lookup r.question_id = some r.visits := by
  unfold create_batch at h
  obtain ⟨id, hid, hmap⟩ := List.mem_filterMap.mp h
  obtain ⟨v, hv, hr⟩ := Option.map_eq_some'.mp hmap
  obtain ⟨hid1, hid2⟩ := List.mem_filter.mp hid
  subst hr
  exact ⟨hid1, of_decide_eq_true hid2, hv⟩

theorem chunkInserts_mem {existing : List Nat} {b : List (Nat × Nat)}
    {r : QVisit} (h : r ∈ chunkInserts existing b) :
    r.question_id ∈ existing ∧ r.question_id ∈ batchKeys b
      ∧ b.lookup r.question_id = some r.visits := by
  unfold chunkInserts at h
  obtain ⟨l, hl, hr⟩ := List.mem_flatten.mp h
  obtain ⟨sub, hsub, hcreate⟩ := List.mem_map.mp hl
  rw [← hcreate] at hr
  obtain ⟨h1, h2, h3⟩ := create_batch_mem hr
  refine ⟨h1, ?_, h3⟩
  have hin : r.question_id ∈ (chunked (batchKeys b) 1000).flatten :=
    List.mem_flatten.mpr ⟨sub, hsub, h2⟩
  rwa [chunked_flatten] at hin

theorem run_closed (existing : List Nat) :
    ∀ (cs : List (List (Nat × Nat))) (s : List QVisit),
      List.Pairwise (fun b c => (batchKeys b).Disjoint (batchKeys c)) cs →
      cs.foldl (processChunk existing) s
        = s.filter (fun r => !(decide (r.question_id ∈ (cs.map batchKeys).flatten)))
            ++ (cs.map (chunkInserts existing)).flatten := by
  intro cs
  induction cs with
  | nil =>
      intro s _
      simp
  | cons b tl ih =>
      intro s hpw
      obtain ⟨hb, htl⟩ := List.pairwise_cons.mp hpw
      simp only [List.foldl_cons, processChunk_eq, List.map_cons, List.flatten_cons]
      rw [ih _ htl, List.filter_append, List.filter_filter]
      have hIb : (chunkInserts existing b).filter
          (fun r => !(decide (r.question_id ∈ (tl.map batchKeys).flatten)))
          = chunkInserts existing b := by
        refine List.filter_eq_self.mpr (fun r hr => ?_)
        obtain ⟨_, hkey, _⟩ := chunkInserts_mem hr
        simp only [Bool.not_eq_true', decide_eq_false_iff_not]
        intro hmem
        obtain ⟨kl, hkl, hrk⟩ := List.mem_flatten.mp hmem
        obtain ⟨c, hc, hck⟩ := List.mem_map.mp hkl
        rw [← hck] at hrk
        exact hb c hc hkey hrk
      rw [hIb]
      have hpred : ∀ r : QVisit,
          ((!(decide (r.question_id ∈ (tl.map batchKeys).flatten)))
            && (!(decide (r.question_id ∈ batchKeys b))))
          = (!(decide (r.question_id ∈ batchKeys b ++ (tl.map batchKeys).flatten))) := by
        intro r
        by_cases h1 : r.question_id ∈ batchKeys b <;>
          by_cases h2 : r.question_id ∈ (tl.map batchKeys).flatten <;>
            simp [h1, h2]
      rw [List.filter_congr (fun r _ => hpred r), List.append_assoc]

theorem run_prepared (existing : List Nat) :
    ∀ (cs : List (List (Nat × Nat))) (P S : List QVisit),
      List.Pairwise (fun b c => (batchKeys b).Disjoint (batchKeys c)) cs →
      (∀ r ∈ P, ∀ b ∈ cs, r.question_id ∉ batchKeys b) →
      (∀ r ∈ S, ∀ b ∈ cs, r.question_id ∉ batchKeys b) →
      cs.foldl (processChunk existing)
          (P ++ (cs.map (chunkInserts existing)).flatten ++ S)
        = P ++ S ++ (cs.map (chunkInserts existing)).flatten := by
  intro cs
  induction cs with
  | nil =>
      intro P S _ _ _
      simp
  | cons b tl ih =>
      intro P S hpw hP hS
      obtain ⟨hb, htl⟩ := List.pairwise_cons.mp hpw
      simp only [List.foldl_cons, processChunk_eq, List.map_cons, List.flatten_cons]
      have hfilter :
          ((P ++ (chunkInserts existing b ++ (tl.map (chunkInserts existing)).flatten)
              ++ S).filter (fun r => !(decide (r.question_id ∈ batchKeys b))))
          = P ++ (tl.map (chunkInserts existing)).flatten ++ S := by
        rw [List.filter_append, List.filter_append, List.filter_append]
        have hPf : P.filter (fun r => !(decide (r.question_id ∈ batchKeys b))) = P :=
          List.filter_eq_self.mpr (fun r hr => by
            simpa using hP r hr b (List.mem_cons_self b tl))
        have hSf : S.filter (fun r => !(decide (r.question_id ∈ batchKeys b))) = S :=
          List.filter_eq_self.mpr (fun r hr => by
            simpa using hS r hr b (List.mem_cons_self b tl))
        have hIbf : (chunkInserts existing b).filter
            (fun r => !(decide (r.question_id ∈ batchKeys b))) = [] :=
          List.filter_eq_nil_iff.mpr (fun r hr => by
            obtain ⟨_, hkey, _⟩ := chunkInserts_mem hr
            simp [hkey])
        have hItlf : ((tl.map (chunkInserts existing)).flatten).filter
            (fun r => !(decide (r.question_id ∈ batchKeys b)))
            = (tl.map (chunkInserts existing)).flatten :=
          List.filter_eq_self.mpr (fun r hr => by
            obtain ⟨l, hl, hrl⟩ := List.mem_flatten.mp hr
            obtain ⟨c, hc, hcl⟩ := List.mem_map.mp hl
            rw [← hcl] at hrl
            obtain ⟨_, hkey, _⟩ := chunkInserts_mem hrl
            simp only [Bool.not_eq_true', decide_eq_false_iff_not]
            exact fun hmem => hb c hc hmem hkey)
        rw [hPf, hSf, hIbf, hItlf, List.nil_append]
      rw [hfilter]
      have hP2 : ∀ r ∈ P, ∀ c ∈ tl, r.question_id ∉ batchKeys c :=
        fun r hr c hc => hP r hr c (List.mem_cons_of_mem b hc)
      have hS2 : ∀ r ∈ S ++ chunkInserts existing b, ∀ c ∈ tl,
          r.question_id ∉ batchKeys c := by
        intro r hr c hc
        rcases List.mem_append.mp hr with hrs | hrb
        · exact hS r hrs c (List.mem_cons_of_mem b hc)
        · obtain ⟨_, hkey, _⟩ := chunkInserts_mem hrb
          exact fun hmem => hb c hc hkey hmem
      have hshape : P ++ (tl.map (chunkInserts existing)).flatten ++ S
            ++ chunkInserts existing b
          = P ++ (tl.map (chunkInserts existing)).flatten
            ++ (S ++ chunkInserts existing b) := by
        simp [List.append_assoc]
      rw [hshape, ih P (S ++ chunkInserts existing b) htl hP2 hS2]
      simp [List.append_assoc]

theorem create_batch_cons_notsub {e : Nat} {ex : List Nat} {b : List (Nat × Nat)}
    {sub : List Nat} (h : e ∉ sub) :
    create_batch (e :: ex) b sub = create_batch ex b sub := by
  simp [create_batch, List.filter_cons, h]

theorem create_batch_cons_none {e : Nat} {ex : List Nat} {b : List (Nat × Nat)}
    {sub : List Nat} (h : e ∈ sub) (hl : b.lookup e = none) :
    create_batch (e :: ex) b sub = create_batch ex b sub := by
  simp [create_batch, List.filter_cons, h, List.filterMap_cons, hl]

theorem create_batch_cons_some {e w : Nat} {ex : List Nat} {b : List (Nat × Nat)}
    {sub : List Nat} (h : e ∈ sub) (hl : b.lookup e = some w) :
    create_batch (e :: ex) b sub
      = { question_id := e, visits := w } :: create_batch ex b sub := by
  simp [create_batch, List.filter_cons, h, List.filterMap_cons, hl]

theorem create_batch_filter_notin {existing : List Nat} {b : List (Nat × Nat)}
    {sub : List Nat} {qid : Nat} (h : qid ∉ existing) :
    (create_batch existing b sub).filter (fun r => r.question_id == qid) = [] := by
  refine List.filter_eq_nil_iff.mpr (fun r hr hg => ?_)
  obtain ⟨h1, _, _⟩ := create_batch_mem hr
  rw [beq_iff_eq.mp hg] at h1
  exact h h1

theorem create_batch_filter_notsub {existing : List Nat} {b : List (Nat × Nat)}
    {sub : List Nat} {qid : Nat} (h : qid ∉ sub) :
    (create_batch existing b sub).filter (fun r => r.question_id == qid) = [] := by
  refine List.filter_eq_nil_iff.mpr (fun r hr hg => ?_)
  obtain ⟨_, h2, _⟩ := create_batch_mem hr
  rw [beq_iff_eq.mp hg] at h2
  exact h h2

theorem create_batch_filter (b : List (Nat × Nat)) (sub : List Nat) (qid v : Nat)
    (hlook : b.lookup qid = some v) (hqs : qid ∈ sub) :
    ∀ existing : List Nat, existing.Nodup → qid ∈ existing →
      (create_batch existing b sub).filter (fun r => r.question_id == qid)
        = [{ question_id := qid, visits := v }] := by
  intro existing
  induction existing with
  | nil =>
      intro _ h
      exact absurd h (List.not_mem_nil qid)
  | cons e ex ih =>
      intro hnd hq
      obtain ⟨hne, hnd2⟩ := List.nodup_cons.mp hnd
      rcases eq_or_ne e qid with heq | hne2
      · subst heq
        rw [create_batch_cons_some hqs hlook, List.filter_cons]
        simp only [beq_self_eq_true, if_pos]
        rw [create_batch_filter_notin hne]
      · have hq2 : qid ∈ ex := by
          rcases List.mem_cons.mp hq with h | h
          · exact absurd h.symm hne2
          · exact h
        by_cases hpe : e ∈ sub
        · cases hle : b.lookup e with
          | none => rw [create_batch_cons_none hpe hle]; exact ih hnd2 hq2
          | some w =>
              rw [create_batch_cons_some hpe hle, List.filter_cons]
              simp only [show (e == qid) = false by simp [hne2], if_neg]
              exact ih hnd2 hq2
        · rw [create_batch_cons_notsub hpe]
          exact ih hnd2 hq2

theorem flatten_map_single {α β : Type} (f : α → List β) (P : α → Prop) (x : β) :
    ∀ cs : List α,
      (∀ c ∈ cs, ¬ P c → f c = []) →
      (∀ c ∈ cs, P c → f c = [x]) →
      List.Pairwise (fun a b => ¬ P a ∨ ¬ P b) cs →
      (∃ c ∈ cs, P c) → (cs.map f).flatten = [x] := by
  intro cs
  induction cs with
  | nil =>
      rintro _ _ _ ⟨c, hc, _⟩
      exact absurd hc (List.not_mem_nil c)
  | cons c tl ih =>
      rintro hnil hone hpw ⟨c0, hc0, hP0⟩
      obtain ⟨hd, htl⟩ := List.pairwise_cons.mp hpw
      by_cases hPc : P c
      · have htlnil : (tl.map f).flatten = [] := by
          refine List.flatten_eq_nil_iff.mpr (fun l hl => ?_)
          obtain ⟨d, hdm, hdf⟩ := List.mem_map.mp hl
          rw [← hdf]
          refine hnil d (List.mem_cons_of_mem c hdm) ?_
          rcases hd d hdm with h | h
          · exact absurd hPc h
          · exact h
        simp [hone c (List.mem_cons_self c tl) hPc, htlnil]
      · have hc0tl : c0 ∈ tl := by
          rcases List.mem_cons.mp hc0 with h | h
          · rw [h] at hP0; exact absurd hP0 hPc
          · exact h
        have hrest := ih (fun d hd => hnil d (List.mem_cons_of_mem c hd))
          (fun d hd => hone d (List.mem_cons_of_mem c hd)) htl ⟨c0, hc0tl, hP0⟩
        simp [hnil c (List.mem_cons_self c tl) hPc, hrest]

theorem lookup_of_mem_nodup :
    ∀ (b : List (Nat × Nat)) (qid v : Nat),
      (qid, v) ∈ b → (batchKeys b).Nodup → b.lookup qid = some v := by
  intro b
  induction b with
  | nil =>
      intro qid v h _
      exact absurd h (List.not_mem_nil _)
  | cons p tl ih =>
      intro qid v hmem hnd
      obtain ⟨k, w⟩ := p
      have hnd' : (k :: List.map Prod.fst tl).Nodup := by
        simpa only [batchKeys, List.map_cons] using hnd
      obtain ⟨hk, hnd2⟩ := List.nodup_cons.mp hnd'
      rw [List.lookup_cons]
      by_cases hqk : qid = k
      · subst hqk
        simp only [beq_self_eq_true]
        rcases List.mem_cons.mp hmem with h | h
        · injection h with h1 h2
          rw [h2]
        · exact absurd (List.mem_map.mpr ⟨(qid, v), h, rfl⟩) hk
      · have hfalse : (qid == k) = false := by simp [hqk]
        simp only [hfalse]
        refine ih qid v ?_ hnd2
        rcases List.mem_cons.mp hmem with h | h
        · injection h with h1 _
          exact absurd h1 hqk
        · exact h

theorem chunkInserts_filter_nil {existing : List Nat} {b : List (Nat × Nat)}
    {qid : Nat} (h : qid ∉ batchKeys b) :
    (chunkInserts existing b).filter (fun r => r.question_id == qid) = [] := by
  refine List.filter_eq_nil_iff.mpr (fun r hr hg => ?_)
  obtain ⟨_, hkey, _⟩ := chunkInserts_mem hr
  rw [beq_iff_eq.mp hg] at hkey
  exact h hkey

theorem chunkInserts_filter (existing : List Nat) (b : List (Nat × Nat))
    (qid v : Nat) (hex : existing.Nodup) (hqe : qid ∈ existing)
    (hbk : (batchKeys b).Nodup) (hmem : (qid, v) ∈ b) :
    (chunkInserts existing b).filter (fun r => r.question_id == qid)
      = [{ question_id := qid, visits := v }] := by
  have hlook := lookup_of_mem_nodup b qid v hmem hbk
  unfold chunkInserts
  rw [List.filter_flatten, List.map_map]
  have hqk : qid ∈ batchKeys b := List.mem_map.mpr ⟨(qid, v), hmem, rfl⟩
  have hqflat : qid ∈ (chunked (batchKeys b) 1000).flatten := by
    rw [chunked_flatten]
    exact hqk
  obtain ⟨sub0, hsub0, hq0⟩ := List.mem_flatten.mp hqflat
  have hndflat : ((chunked (batchKeys b) 1000).flatten).Nodup := by
    rw [chunked_flatten]
    exact hbk
  have hpwsubs := (List.nodup_flatten.mp hndflat).2
  refine flatten_map_single _ (fun sub => qid ∈ sub) _ _ ?_ ?_ ?_ ⟨sub0, hsub0, hq0⟩
  · intro sub _ hnsub
    simp only [Function.comp_apply]
    exact create_batch_filter_notsub hnsub
  · intro sub _ hsub
    simp only [Function.comp_apply]
    exact create_batch_filter b sub qid v hlook hsub existing hex hqe
  · refine hpwsubs.imp ?_
    intro a c hdisj
    by_cases hmem1 : qid ∈ a
    · exact Or.inr (fun hc => hdisj hmem1 hc)
    · exact Or.inl hmem1

theorem pv_key_unique :
    ∀ (pv : List (Nat × Nat)) (qid v w : Nat),
      (pv.map Prod.fst).Nodup → (qid, v) ∈ pv → (qid, w) ∈ pv → v = w := by
  intro pv
  induction pv with
  | nil =>
      intro qid v w _ h
      exact absurd h (List.not_mem_nil _)
  | cons p tl ih =>
      intro qid v w hnd hv hw
      obtain ⟨k, u⟩ := p
      have hnd' : (k :: List.map Prod.fst tl).Nodup := by
        simpa only [List.map_cons] using hnd
      obtain ⟨hk, hnd2⟩ := List.nodup_cons.mp hnd'
      rcases List.mem_cons.mp hv with h1 | h1 <;> rcases List.mem_cons.mp hw with h2 | h2
      · injection h1 with h1a h1b
        injection h2 with h2a h2b
        rw [h1b, h2b]
      · injection h1 with h1a h1b
        rw [← h1a] at hk
        exact absurd (List.mem_map.mpr ⟨(qid, w), h2, rfl⟩) hk
      · injection h2 with h2a h2b
        rw [← h2a] at hk
        exact absurd (List.mem_map.mpr ⟨(qid, v), h1, rfl⟩) hk
      · exact ih qid v w hnd2 h1 h2

/-- C2: running the analytics reconciliation twice with the same input
leaves exactly the same list of `QuestionVisits` rows; the run never
creates a row whose question id is not an existing Question; and every
input pair whose question still exists ends up as exactly one stored row
carrying the given visit count (stale rows for that question are gone). -/
theorem c2_reload_idempotent (existing : List Nat) (pv : List (Nat × Nat))
    (s : List QVisit) (hkeys : (pv.map Prod.fst).Nodup) (hex : existing.Nodup) :
    reload_from_analytics existing pv (reload_from_analytics existing pv s)
      = reload_from_analytics existing pv s
    ∧ (∀ r ∈ reload_from_analytics existing pv s, r ∈ s ∨ r.question_id ∈ existing)
    ∧ (∀ qid v, (qid, v) ∈ pv → qid ∈ existing →
        (reload_from_analytics existing pv s).filter (fun r => r.question_id == qid)
          = [{ question_id := qid, visits := v }]) := by
  have hkeysflat : ((chunked pv 30000).map batchKeys).flatten = pv.map Prod.fst := by
    have heq : (chunked pv 30000).map batchKeys
        = (chunked pv 30000).map (List.map Prod.fst) := rfl
    rw [heq, ← List.map_flatten, chunked_flatten]
  have hndflat : (((chunked pv 30000).map batchKeys).flatten).Nodup := by
    rw [hkeysflat]
    exact hkeys
  have hpw : List.Pairwise (fun b c => (batchKeys b).Disjoint (batchKeys c))
      (chunked pv 30000) :=
    List.pairwise_map.mp (List.nodup_flatten.mp hndflat).2
  have hclosed : reload_from_analytics existing pv s
      = s.filter (fun r => !(decide (r.question_id ∈ pv.map Prod.fst)))
        ++ ((chunked pv 30000).map (chunkInserts existing)).flatten := by
    unfold reload_from_analytics
    rw [run_closed existing _ s hpw, hkeysflat]
  refine ⟨?_, ?_, ?_⟩
  · rw [hclosed]
    unfold reload_from_analytics
    have hP : ∀ r ∈ s.filter (fun r => !(decide (r.question_id ∈ pv.map Prod.fst))),
        ∀ b ∈ chunked pv 30000, r.question_id ∉ batchKeys b := by
      intro r hr b hb hmem
      have h2 := List.of_mem_filter hr
      simp only [Bool.not_eq_true', decide_eq_false_iff_not] at h2
      apply h2
      rw [← hkeysflat]
      exact List.mem_flatten.mpr ⟨batchKeys b, List.mem_map.mpr ⟨b, hb, rfl⟩, hmem⟩
    have happly := run_prepared existing (chunked pv 30000)
      (s.filter (fun r => !(decide (r.question_id ∈ pv.map Prod.fst)))) [] hpw hP
      (fun r hr => absurd hr (List.not_mem_nil r))
    rw [List.append_nil, List.append_nil] at happly
    exact happly
  · intro r hr
    rw [hclosed] at hr
    rcases List.mem_append.mp hr with h | h
    · exact Or.inl (List.mem_of_mem_filter h)
    · obtain ⟨l, hl, hrl⟩ := List.mem_flatten.mp h
      obtain ⟨c, hc, hcl⟩ := List.mem_map.mp hl
      rw [← hcl] at hrl
      exact Or.inr (chunkInserts_mem hrl).1
  · intro qid v hpv hqe
    have hqkeys : qid ∈ pv.map Prod.fst := List.mem_map.mpr ⟨(qid, v), hpv, rfl⟩
    rw [hclosed, List.filter_append]
    have h1 : (s.filter (fun r => !(decide (r.question_id ∈ pv.map Prod.fst)))).filter
        (fun r => r.question_id == qid) = [] := by
      refine List.filter_eq_nil_iff.mpr (fun r hr hg => ?_)
      have h2 := List.of_mem_filter hr
      simp only [Bool.not_eq_true', decide_eq_false_iff_not] at h2
      rw [beq_iff_eq.mp hg] at h2
      exact h2 hqkeys
    rw [h1, List.nil_append, List.filter_flatten, List.map_map]
    have hchunkmem : ∀ c ∈ chunked pv 30000, ∀ p ∈ c, p ∈ pv := by
      intro c hc p hp
      have hmem : p ∈ (chunked pv 30000).flatten := List.mem_flatten.mpr ⟨c, hc, hp⟩
      rwa [chunked_flatten] at hmem
    have hsubnodup : ∀ c ∈ chunked pv 30000, (batchKeys c).Nodup := by
      intro c hc
      exact (List.nodup_flatten.mp hndflat).1 (batchKeys c) (List.mem_map.mpr ⟨c, hc, rfl⟩)
    obtain ⟨c0, hc0, hp0⟩ : ∃ c ∈ chunked pv 30000, (qid, v) ∈ c := by
      have hmem : (qid, v) ∈ (chunked pv 30000).flatten := by
        rw [chunked_flatten]
        exact hpv
      exact List.mem_flatten.mp hmem
    refine flatten_map_single _ (fun c => (qid, v) ∈ c) _ _ ?_ ?_ ?_ ⟨c0, hc0, hp0⟩
    · intro c hc hnc
      simp only [Function.comp_apply]
      refine chunkInserts_filter_nil (fun hqbk => hnc ?_)
      obtain ⟨⟨k, w⟩, hkw, hfst⟩ := List.mem_map.mp hqbk
      have hkv : k = qid := hfst
      rw [hkv] at hkw
      have hwv : v = w := pv_key_unique pv qid v w hkeys hpv (hchunkmem c hc _ hkw)
      rw [hwv]
      exact hkw
    · intro c hc hPc
      simp only [Function.comp_apply]
      exact chunkInserts_filter existing c qid v hex hqe (hsubnodup c hc) hPc
    · refine hpw.imp ?_
      intro a c hdisj
      by_cases hmem1 : (qid, v) ∈ a
      · refine Or.inr (fun hmem2 => ?_)
        exact hdisj (List.mem_map.mpr ⟨(qid, v), hmem1, rfl⟩)
          (List.mem_map.mpr ⟨(qid, v), hmem2, rfl⟩)
      · exact Or.inl hmem1

/-- C2 witness: a concrete run over existing questions 1, 2, 3 with
analytics pairs for questions 1, 4 (deleted) and 2, starting from a stale
table; the second run reproduces the first run's table exactly. -/
theorem c2_witness :
    ((([(1, 5), (4, 9), (2, 0)] : List (Nat × Nat)).map Prod.fst).Nodup)
    ∧ (([1, 2, 3] : List Nat).Nodup)
    ∧ reload_from_analytics [1, 2, 3] [(1, 5), (4, 9), (2, 0)]
        (reload_from_analytics [1, 2, 3] [(1, 5), (4, 9), (2, 0)]
          [{ question_id := 1, visits := 100 }, { question_id := 7, visits := 3 }])
      = reload_from_analytics [1, 2, 3] [(1, 5), (4, 9), (2, 0)]
          [{ question_id := 1, visits := 100 }, { question_id := 7, visits := 3 }] :=
  ⟨by decide, by decide,
    (c2_reload_idempotent [1, 2, 3] [(1, 5), (4, 9), (2, 0)]
      [{ question_id := 1, visits := 100 }, { question_id := 7, visits := 3 }]
      (by decide) (by decide)).1⟩

/-- The database error of a failed bulk insert (`django.db.IntegrityError`
as caught in `models.py` line 841). -/
inductive DBError where
  | integrityError
  deriving DecidableEq

/-- The sub-batch insert loop of `reload_from_analytics` with its retry
(`models.py` lines 834-848), under an external failure schedule: `fail1 j`
says whether the first insert attempt of the run's j-th sub-batch raises
`IntegrityError` (its inner atomic block is then rolled back, so the
retry starts from the unmodified table), `fail2 j` whether the one retry
raises again, in which case the error propagates; otherwise the sub-batch
ends up inserted exactly once. -/
def insertSubBatchesF (fail1 fail2 : Nat → Bool) (existing : List Nat)
    (b : List (Nat × Nat)) :
    List (List Nat) → List QVisit → Nat → Except DBError (List QVisit × Nat)
  | [], db, k => .ok (db, k)
  | sub :: rest, db, k =>
      if fail1 k ∧ fail2 k then .error .integrityError
      else insertSubBatchesF fail1 fail2 existing b rest
        (db ++ create_batch existing b sub) (k + 1)

/-- One buffer iteration of `reload_from_analytics` under the failure
schedule: delete the batch's stored rows, then insert sub-batch by
sub-batch, threading the global sub-batch counter. -/
def processChunkF (fail1 fail2 : Nat → Bool) (existing : List Nat)
    (st : List QVisit × Nat) (b : List (Nat × Nat)) :
    Except DBError (List QVisit × Nat) :=
  insertSubBatchesF fail1 fail2 existing b (chunked (batchKeys b) 1000)
    (st.1.filter (fun r => !(decide (r.question_id ∈ batchKeys b)))) st.2

/-- `reload_from_analytics` under the failure schedule; the first
sub-batch whose two attempts both fail aborts the whole run. -/
def reload_from_analyticsF (fail1 fail2 : Nat → Bool) (existing : List Nat)
    (pv : List (Nat × Nat)) (state : List QVisit) : Except DBError (List QVisit) :=
  ((chunked pv 30000).foldlM (processChunkF fail1 fail2 existing) (state, 0)).map
    (fun st => st.1)

/-- The stored table after a reconciliation attempt: the whole run sits in
one outer `transaction.atomic()` (`models.py` line 779), so an error that
propagates rolls every change of the invocation back. -/
def reload_from_analyticsF_db (fail1 fail2 : Nat → Bool) (existing : List Nat)
    (pv : List (Nat × Nat)) (state : List QVisit) : List QVisit :=
  match reload_from_analyticsF fail1 fail2 existing pv state with
  | .ok db => db
  | .error _ => state

theorem insertSubBatchesF_ok {fail1 fail2 : Nat → Bool}
    (h : ∀ j, ¬(fail1 j = true ∧ fail2 j = true)) (existing : List Nat)
    (b : List (Nat × Nat)) :
    ∀ (subs : List (List Nat)) (db : List QVisit) (k : Nat),
      insertSubBatchesF fail1 fail2 existing b subs db k
        = .ok (subs.foldl (fun st sub => st ++ create_batch existing b sub) db,
               k + subs.length) := by
  intro subs
  induction subs with
  | nil =>
      intro db k
      simp [insertSubBatchesF]
  | cons sub rest ih =>
      intro db k
      simp only [insertSubBatchesF, if_neg (h k), ih, List.foldl_cons, List.length_cons]
      refine congrArg Except.ok ?_
      refine congrArg _ ?_
      omega

theorem reloadF_foldlM_ok {fail1 fail2 : Nat → Bool}
    (h : ∀ j, ¬(fail1 j = true ∧ fail2 j = true)) (existing : List Nat) :
    ∀ (cs : List (List (Nat × Nat))) (st : List QVisit) (k : Nat),
      ∃ k', cs.foldlM (processChunkF fail1 fail2 existing) (st, k)
        = .ok (cs.foldl (processChunk existing) st, k') := by
  intro cs
  induction cs with
  | nil =>
      intro st k
      exact ⟨k, rfl⟩
  | cons b tl ih =>
      intro st k
      rw [List.foldlM_cons]
      have hstep : processChunkF fail1 fail2 existing (st, k) b
          = .ok (processChunk existing st b, k + (chunked (batchKeys b) 1000).length) := by
        unfold processChunkF
        rw [insertSubBatchesF_ok h]
        rfl
      rw [hstep]
      obtain ⟨k', hk'⟩ := ih (processChunk existing st b)
        (k + (chunked (batchKeys b) 1000).length)
      exact ⟨k', hk'⟩


theorem chunked_cons_of_cons {α : Type} (a : α) (tl : List α) (n : Nat) :
    ∃ cs, chunked (a :: tl) (n + 1) = (a :: tl.take n) :: cs := by
  refine ⟨chunkedAux (n + 1) tl.length ((a :: tl).drop (n + 1)), ?_⟩
  show chunkedAux (n + 1) (a :: tl).length (a :: tl) = _
  simp [chunkedAux, List.length_cons, List.take_succ_cons]

/-- C3: a sub-batch whose first insert fails is retried exactly once and
the run carries on (a run in which no sub-batch fails on both attempts
produces precisely the result of the failure-free reconciliation); if the
retry of a reached sub-batch fails too, the run returns the integrity
error — in particular whenever the very first sub-batch fails twice — and
the stored table is left exactly as before the invocation
(all-or-nothing per invocation, not per sub-batch). -/
theorem c3_retry_once_then_abort (fail1 fail2 : Nat → Bool) (existing : List Nat)
    (pv : List (Nat × Nat)) (state : List QVisit) :
    ((∀ j, ¬(fail1 j = true ∧ fail2 j = true)) →
      reload_from_analyticsF fail1 fail2 existing pv state
        = .ok (reload_from_analytics existing pv state))
    ∧ (∀ e, reload_from_analyticsF fail1 fail2 existing pv state = .error e →
        reload_from_analyticsF_db fail1 fail2 existing pv state = state)
    ∧ (pv ≠ [] → fail1 0 = true → fail2 0 = true →
        reload_from_analyticsF fail1 fail2 existing pv state
          = .error .integrityError) := by
  refine ⟨?_, ?_, ?_⟩
  · intro h
    unfold reload_from_analyticsF
    obtain ⟨k', hk'⟩ := reloadF_foldlM_ok h existing (chunked pv 30000) state 0
    rw [hk']
    rfl
  · intro e he
    unfold reload_from_analyticsF_db
    rw [he]
  · intro hpv h1 h2
    obtain ⟨p, pv', rfl⟩ := List.exists_cons_of_ne_nil hpv
    obtain ⟨cs, hcs⟩ := chunked_cons_of_cons p pv' 29999
    unfold reload_from_analyticsF
    rw [show (30000 : Nat) = 29999 + 1 from rfl, hcs, List.foldlM_cons]
    obtain ⟨ds, hds⟩ := chunked_cons_of_cons p.1 (batchKeys (pv'.take 29999)) 999
    have hstep : processChunkF fail1 fail2 existing (state, 0) (p :: pv'.take 29999)
        = .error .integrityError := by
      unfold processChunkF
      have hkeys : batchKeys (p :: pv'.take 29999)
          = p.1 :: batchKeys (pv'.take 29999) := rfl
      rw [hkeys, show (1000 : Nat) = 999 + 1 from rfl, hds]
      simp [insertSubBatchesF, h1, h2]
    rw [hstep]
    rfl

/-- C3 witness: with a schedule in which only the first sub-batch's first
attempt fails, the run succeeds with the failure-free result; with a
schedule failing both attempts, the run errors and the stored table is
untouched. -/
theorem c3_witness :
    reload_from_analyticsF (fun j => j == 0) (fun _ => false) [1, 2] [(1, 4), (2, 6)] []
      = .ok (reload_from_analytics [1, 2] [(1, 4), (2, 6)] [])
    ∧ reload_from_analyticsF (fun _ => true) (fun _ => true) [1, 2] [(1, 4), (2, 6)]
        [{ question_id := 9, visits := 1 }]
      = .error .integrityError
    ∧ reload_from_analyticsF_db (fun _ => true) (fun _ => true) [1, 2] [(1, 4), (2, 6)]
        [{ question_id := 9, visits := 1 }]
      = [{ question_id := 9, visits := 1 }] :=
  ⟨(c3_retry_once_then_abort (fun j => j == 0) (fun _ => false) [1, 2]
      [(1, 4), (2, 6)] []).1 (fun _ h => absurd h.2 (by simp)),
   (c3_retry_once_then_abort (fun _ => true) (fun _ => true) [1, 2]
      [(1, 4), (2, 6)] [{ question_id := 9, visits := 1 }]).2.2 (by decide) rfl rfl,
   (c3_retry_once_then_abort (fun _ => true) (fun _ => true) [1, 2]
      [(1, 4), (2, 6)] [{ question_id := 9, visits := 1 }]).2.1 .integrityError
     ((c3_retry_once_then_abort (fun _ => true) (fun _ => true) [1, 2]
        [(1, 4), (2, 6)] [{ question_id := 9, visits := 1 }]).2.2 (by decide) rfl rfl)⟩

/-- Descending order on answer creation times, the `order_by("-created")`
of `Answer.delete`. -/
def createdGE (a b : AnswerRec) : Prop := b.created ≤ a.created

instance : DecidableRel createdGE := fun a b => Int.decLe b.created a.created

instance : IsTotal AnswerRec createdGE := ⟨fun a b => Int.le_total b.created a.created⟩

instance : IsTrans AnswerRec createdGE := ⟨fun _ _ _ h1 h2 => Int.le_trans h2 h1⟩

/-- The mutation of the parent question inside `Answer.delete`
(`models.py` lines 971-983): when the deleted answer is the current last
answer, repoint `last_answer` at entry 1 of all the question's answers
ordered by creation time descending (`answers[1]`), or at nothing when
that raises `IndexError`; clear `solution` when it was the deleted
answer; set `num_answers` to the non-spam count minus one. -/
def answer_delete_question (q : QuestionRec) (qAnswers : List AnswerRec)
    (self : AnswerRec) : QuestionRec :=
  let q1 :=
    if q.last_answer == some self.id then
      { q with last_answer := ((qAnswers.insertionSort createdGE)[1]?).map (fun a => a.id) }
    else q
  let q2 := if q1.solution == some self.id then { q1 with solution := none } else q1
  { q2 with num_answers := ((qAnswers.filter (fun a => !a.is_spam)).length : Int) - 1 }

/-- The `on_delete=SET_NULL` behaviour of the `last_answer` and `solution`
foreign keys (`models.py` lines 115-121): deleting the answer row nulls
any question field still referencing it. -/
def cascade_set_null (self_id : Nat) (r : QuestionRec) : QuestionRec :=
  { r with
    last_answer := if r.last_answer == some self_id then none else r.last_answer,
    solution := if r.solution == some self_id then none else r.solution }

/-- `Answer.delete` (`models.py` lines 967-989): fetch the parent question
(`DoesNotExist` is modelled as `none`), update and save it, then delete
the answer row, upon which the database applies the `SET_NULL` cascades. -/
def answer_delete (db : DB) (self : AnswerRec) : Option DB :=
  match db.questions.find? (fun q => q.id == self.question_id) with
  | none => none
  | some q =>
      let q3 := answer_delete_question q
        (db.answers.filter (fun a => a.question_id == self.question_id)) self
      some { db with
        questions := (db.questions.map
          (fun r => if r.id == self.question_id then q3 else r)).map
            (cascade_set_null self.id),
        answers := db.answers.filter (fun a => !(a.id == self.id)) }

theorem answer_delete_question_id (q : QuestionRec) (qAnswers : List AnswerRec)
    (self : AnswerRec) : (answer_delete_question q qAnswers self).id = q.id := by
  unfold answer_delete_question
  dsimp only
  split <;> split <;> rfl

theorem answer_delete_question_solution (q : QuestionRec)
    (qAnswers : List AnswerRec) (self : AnswerRec) :
    (answer_delete_question q qAnswers self).solution
      = if q.solution = some self.id then none else q.solution := by
  unfold answer_delete_question
  dsimp only
  split
  · split
    · next h => simp only [beq_iff_eq] at h; rw [if_pos h]
    · next h => simp only [beq_iff_eq] at h; rw [if_neg h]
  · split
    · next h => simp only [beq_iff_eq] at h; rw [if_pos h]
    · next h => simp only [beq_iff_eq] at h; rw [if_neg h]

theorem answer_delete_question_last (q : QuestionRec)
    (qAnswers : List AnswerRec) (self : AnswerRec) :
    (answer_delete_question q qAnswers self).last_answer
      = if q.last_answer = some self.id then
          ((qAnswers.insertionSort createdGE)[1]?).map (fun a => a.id)
        else q.last_answer := by
  unfold answer_delete_question
  dsimp only
  split
  · next h =>
      simp only [beq_iff_eq] at h
      rw [if_pos h]
      split <;> rfl
  · next h =>
      simp only [beq_iff_eq] at h
      rw [if_neg h]
      split <;> rfl

theorem find?_map_update {α : Type} (p : α → Bool) (f : α → α)
    (hp : ∀ r, p (f r) = p r) :
    ∀ (l : List α) (q : α), l.find? p = some q → (l.map f).find? p = some (f q) := by
  intro l
  induction l with
  | nil =>
      intro q h
      exact absurd h (by simp)
  | cons a tl ih =>
      intro q h
      by_cases hpa : p a = true
      · rw [List.find?_cons_of_pos tl hpa] at h
        injection h with h1
        rw [List.map_cons, List.find?_cons_of_pos _ (by rw [hp a]; exact hpa), h1]
      · rw [List.find?_cons_of_neg tl hpa] at h
        rw [List.map_cons, List.find?_cons_of_neg _ (by rw [hp a]; exact hpa)]
        exact ih q h

theorem sorted_head_of_newest (qA : List AnswerRec) (self : AnswerRec)
    (hmem : self ∈ qA)
    (hnewest : ∀ a ∈ qA, a ≠ self → a.created < self.created) :
    ∃ rest, qA.insertionSort createdGE = self :: rest
      ∧ rest.Perm (qA.erase self) := by
  have hperm := List.perm_insertionSort createdGE qA
  have hsort : List.Pairwise createdGE (qA.insertionSort createdGE) :=
    List.sorted_insertionSort createdGE qA
  cases hs : qA.insertionSort createdGE with
  | nil =>
      rw [hs] at hperm
      have hnil : qA = [] := List.perm_nil.mp hperm.symm
      rw [hnil] at hmem
      exact absurd hmem (List.not_mem_nil self)
  | cons hd rest =>
      rw [hs] at hperm hsort
      have hhd : hd = self := by
        by_contra hne
        have hhdmem : hd ∈ qA := hperm.mem_iff.mp (List.mem_cons_self hd rest)
        have hlt : hd.created < self.created := hnewest hd hhdmem hne
        have hselfmem : self ∈ hd :: rest := hperm.mem_iff.mpr hmem
        rcases List.mem_cons.mp hselfmem with h | h
        · exact hne h.symm
        · have hge := (List.pairwise_cons.mp hsort).1 self h
          exact absurd hge (not_le.mpr hlt)
      subst hhd
      exact ⟨rest, rfl, (List.cons_perm_iff_perm_erase.mp hperm).2⟩

theorem erase_eq_filter_id (qA : List AnswerRec) (self : AnswerRec)
    (hnd : (qA.map (fun a => a.id)).Nodup) (hmem : self ∈ qA) :
    qA.erase self = qA.filter (fun a => !(a.id == self.id)) := by
  have hqnd : qA.Nodup := List.Nodup.of_map _ hnd
  rw [hqnd.erase_eq_filter self]
  refine List.filter_congr (fun a ha => ?_)
  by_cases h : a = self
  · subst h
    simp
  · have hid : a.id ≠ self.id := fun hh => h (List.inj_on_of_nodup_map hnd ha hmem hh)
    have h1 : (a != self) = true := bne_iff_ne.mpr h
    have h2 : (a.id == self.id) = false := beq_eq_false_iff_ne.mpr hid
    rw [h1, h2]
    rfl

/-- C7 (amended): deleting an answer of an existing question clears the
question's solution reference when the deleted answer was the solution,
and removes exactly the answer's row; when the deleted answer was the
question's last answer *and* was its most recent answer, the last-answer
pointer moves to the most recent remaining answer of the question, or to
nothing when no answer of the question remains. -/
theorem c7_delete_reassigns (db : DB) (self : AnswerRec) (q : QuestionRec)
    (h0 : db.questions.find? (fun r => r.id == self.question_id) = some q)
    (hnd : ((db.answers.filter (fun a => a.question_id == self.question_id)).map
      (fun a => a.id)).Nodup)
    (hmem : self ∈ db.answers.filter (fun a => a.question_id == self.question_id)) :
    ∃ db' q', answer_delete db self = some db'
      ∧ db'.questions.find? (fun r => r.id == self.question_id) = some q'
      ∧ (q.solution = some self.id → q'.solution = none)
      ∧ db'.answers = db.answers.filter (fun a => !(a.id == self.id))
      ∧ (q.last_answer = some self.id →
          (∀ a ∈ db.answers.filter (fun a => a.question_id == self.question_id),
            a ≠ self → a.created < self.created) →
          (((db.answers.filter (fun a => a.question_id == self.question_id)).filter
              (fun a => !(a.id == self.id)) = []) → q'.last_answer = none)
          ∧ ((db.answers.filter (fun a => a.question_id == self.question_id)).filter
              (fun a => !(a.id == self.id)) ≠ [] →
              ∃ r, r ∈ (db.answers.filter
                  (fun a => a.question_id == self.question_id)).filter
                  (fun a => !(a.id == self.id))
                ∧ (∀ a ∈ (db.answers.filter
                    (fun a => a.question_id == self.question_id)).filter
                    (fun a => !(a.id == self.id)), a.created ≤ r.created)
                ∧ q'.last_answer = some r.id)) := by
  have hpq := List.find?_some h0
  refine ⟨{ db with
      questions := (db.questions.map
        (fun r => if r.id == self.question_id then
          answer_delete_question q
            (db.answers.filter (fun a => a.question_id == self.question_id)) self
          else r)).map (cascade_set_null self.id),
      answers := db.answers.filter (fun a => !(a.id == self.id)) },
    cascade_set_null self.id (answer_delete_question q
      (db.answers.filter (fun a => a.question_id == self.question_id)) self),
    ?_, ?_, ?_, ?_, ?_⟩
  · unfold answer_delete
    rw [h0]
  · rw [List.map_map]
    have hp : ∀ r : QuestionRec,
        (((cascade_set_null self.id ∘ fun r => if r.id == self.question_id then
            answer_delete_question q
              (db.answers.filter (fun a => a.question_id == self.question_id)) self
          else r) r).id == self.question_id) = (r.id == self.question_id) := by
      intro r
      simp only [Function.comp_apply]
      by_cases hr : (r.id == self.question_id) = true
      · rw [if_pos hr]
        show ((answer_delete_question q
          (db.answers.filter (fun a => a.question_id == self.question_id))
          self).id == self.question_id) = (r.id == self.question_id)
        rw [answer_delete_question_id, hr]
        exact hpq
      · rw [if_neg hr]
        rfl
    have hfind := find?_map_update _ _ hp db.questions q h0
    simpa only [Function.comp_apply, hpq, if_true] using hfind
  · intro hsol
    show (cascade_set_null self.id _).solution = none
    have h1 := answer_delete_question_solution q
      (db.answers.filter (fun a => a.question_id == self.question_id)) self
    rw [if_pos hsol] at h1
    simp [cascade_set_null, h1]
  · rfl
  · intro hlast hnewest
    obtain ⟨rest, hsorted, hrestperm⟩ :=
      sorted_head_of_newest _ self hmem hnewest
    rw [erase_eq_filter_id _ self hnd hmem] at hrestperm
    have hlast3 := answer_delete_question_last q
      (db.answers.filter (fun a => a.question_id == self.question_id)) self
    rw [if_pos hlast, hsorted] at hlast3
    cases rest with
    | nil =>
        have hremnil : (db.answers.filter
            (fun a => a.question_id == self.question_id)).filter
            (fun a => !(a.id == self.id)) = [] :=
          List.perm_nil.mp hrestperm.symm
        constructor
        · intro _
          show (cascade_set_null self.id _).last_answer = none
          have hnone : (answer_delete_question q
              (db.answers.filter (fun a => a.question_id == self.question_id))
              self).last_answer = none := by
            rw [hlast3]
            simp
          simp [cascade_set_null, hnone]
        · intro hne
          exact absurd hremnil hne
    | cons r rt =>
        have hrrem : r ∈ (db.answers.filter
            (fun a => a.question_id == self.question_id)).filter
            (fun a => !(a.id == self.id)) :=
          hrestperm.mem_iff.mp (List.mem_cons_self r rt)
        have hrid : r.id ≠ self.id := by
          have hf := List.of_mem_filter hrrem
          simpa using hf
        have hq3last : (answer_delete_question q
            (db.answers.filter (fun a => a.question_id == self.question_id))
            self).last_answer = some r.id := by
          rw [hlast3]
          simp [List.getElem?_cons_succ, List.getElem?_cons_zero]
        constructor
        · intro hremnil
          rw [hremnil] at hrrem
          exact absurd hrrem (List.not_mem_nil r)
        · intro _
          refine ⟨r, hrrem, ?_, ?_⟩
          · intro a ha
            have hamem : a ∈ r :: rt := hrestperm.mem_iff.mpr ha
            rcases List.mem_cons.mp hamem with h | h
            · rw [h]
            · have hsort2 : List.Pairwise createdGE
                  ((db.answers.filter
                    (fun a => a.question_id == self.question_id)).insertionSort
                    createdGE) :=
                List.sorted_insertionSort createdGE _
              rw [hsorted] at hsort2
              exact (List.pairwise_cons.mp ((List.pairwise_cons.mp hsort2).2)).1 a h
          · show (cascade_set_null self.id _).last_answer = some r.id
            simp [cascade_set_null, hq3last, hrid]

/-- A database in which question 1's last answer (id 2, created at 2) is
*not* the most recent answer: a spam answer (id 3) was created later.
Such states arise in the code because a non-new save repoints
`last_answer` at the latest non-spam answer. -/
def c7db : DB :=
  { questions := [{ id := 1, creator := 9, is_spam := false, taken_by := none,
                    taken_until := none, num_votes_past_week := 0, last_answer := some 2,
                    solution := none, num_answers := 2 }],
    answers := [
      { id := 1, question_id := 1, created := 1, is_spam := false, page := 1 },
      { id := 2, question_id := 1, created := 2, is_spam := false, page := 1 },
      { id := 3, question_id := 1, created := 3, is_spam := true, page := 1 }],
    votes := [] }

/-- The last answer (id 2) of question 1 in `c7db`. -/
def c7a2 : AnswerRec :=
  { id := 2, question_id := 1, created := 2, is_spam := false, page := 1 }

/-- C7: deleting `c7a2`, the question's current last answer, leaves
answers 1 and 3 behind, of which id 3 (created at 3) is the
next-most-recent — yet the stored `last_answer` ends up as `none`, not
`some 3`: `answers[1]` of the descending order is the deleted answer
itself, and the `SET_NULL` cascade then clears it.  The claim's promised
reassignment to the next-most-recent remaining answer fails. -/
theorem c7_counterexample :
    (answer_delete c7db c7a2).map (fun db =>
      ((db.questions.find? (fun q => q.id == 1)).map (fun q => q.last_answer),
        db.answers.map (fun a => a.id)))
      = some (some none, [1, 3])
    ∧ some (none : Option Nat) ≠ some (some (3 : Nat)) := by
  constructor
  · decide
  · decide

/-- A database in which question 1's last answer (id 2) is also its most
recent answer; its solution points at the same answer. -/
def c7wdb : DB :=
  { questions := [{ id := 1, creator := 9, is_spam := false, taken_by := none,
                    taken_until := none, num_votes_past_week := 0, last_answer := some 2,
                    solution := some 2, num_answers := 2 }],
    answers := [
      { id := 1, question_id := 1, created := 1, is_spam := false, page := 1 },
      { id := 2, question_id := 1, created := 5, is_spam := false, page := 1 }],
    votes := [] }

/-- The most recent answer (id 2) of question 1 in `c7wdb`. -/
def c7wa : AnswerRec :=
  { id := 2, question_id := 1, created := 5, is_spam := false, page := 1 }

/-- The question row of `c7wdb`. -/
def c7wq : QuestionRec :=
  { id := 1, creator := 9, is_spam := false, taken_by := none,
    taken_until := none, num_votes_past_week := 0, last_answer := some 2,
    solution := some 2, num_answers := 2 }

/-- C7 witness: deleting the most recent answer of question 1 moves
`last_answer` to the most recent remaining answer and clears the
solution. -/
theorem c7_witness :
    ∃ db' q', answer_delete c7wdb c7wa = some db'
      ∧ db'.questions.find? (fun r => r.id == c7wa.question_id) = some q'
      ∧ (c7wq.solution = some c7wa.id → q'.solution = none)
      ∧ db'.answers = c7wdb.answers.filter (fun a => !(a.id == c7wa.id))
      ∧ (c7wq.last_answer = some c7wa.id →
          (∀ a ∈ c7wdb.answers.filter (fun a => a.question_id == c7wa.question_id),
            a ≠ c7wa → a.created < c7wa.created) →
          (((c7wdb.answers.filter (fun a => a.question_id == c7wa.question_id)).filter
              (fun a => !(a.id == c7wa.id)) = []) → q'.last_answer = none)
          ∧ ((c7wdb.answers.filter (fun a => a.question_id == c7wa.question_id)).filter
              (fun a => !(a.id == c7wa.id)) ≠ [] →
              ∃ r, r ∈ (c7wdb.answers.filter
                  (fun a => a.question_id == c7wa.question_id)).filter
                  (fun a => !(a.id == c7wa.id))
                ∧ (∀ a ∈ (c7wdb.answers.filter
                    (fun a => a.question_id == c7wa.question_id)).filter
                    (fun a => !(a.id == c7wa.id)), a.created ≤ r.created)
                ∧ q'.last_answer = some r.id)) :=
  c7_delete_reassigns c7wdb c7wa c7wq (by decide) (by decide) (by decide)
